import Mathlib

/-!
Verification development for the candidate-profile hybrid search service.

The definitions below are a shallow embedding of the Python sources:

* `app/models/search.py`   — request model and validators
* `app/api/v1/search.py`   — the HTTP search endpoint
* `app/services/search_logic.py` — two-stage hybrid search and RRF fusion
* `app/services/consumer.py` — the RabbitMQ message handler
* `app/services/indexer.py`  — document projection, incremental writes and
  the zero-downtime full reindex

External stores (Elasticsearch, Milvus) are modelled by the outcome of the
single call the code makes to them (`Except Unit` results passed as
parameters); machine floats are modelled by exact rationals.
-/

namespace App

/-- Models Python `str.lower()` (ASCII case folding via `Char.toLower`). -/
def lowerStr (s : String) : String := String.mk (s.data.map Char.toLower)

/-- Models Python `str.strip()`: drop whitespace from both ends. -/
def stripStr (s : String) : String :=
  String.mk (((s.data.dropWhile Char.isWhitespace).reverse.dropWhile Char.isWhitespace).reverse)

/-! ## `app/models/search.py` — SearchFilters and its validators -/

/-- The `SearchFilters` pydantic model (defaults as in the source). -/
structure SearchFilters where
  role : Option String := none
  must_skills : List String := []
  nice_skills : List String := []
  experience_min : Option ℚ := none
  experience_max : Option ℚ := none
  location : Option String := none
  work_modes : List String := []
  exclude_ids : List String := []
deriving DecidableEq

/-- The `normalize_skills` field validator:
`[skill.strip().lower() for skill in v if skill.strip()]`. -/
def normalize_skills (v : List String) : List String :=
  (v.filter (fun s => !(stripStr s == ""))).map (fun s => lowerStr (stripStr s))

/-- The `validate_experience` field validator: rejects negative values only. -/
def validate_experience (v : Option ℚ) : Except String (Option ℚ) :=
  match v with
  | none => Except.ok none
  | some x => if x < 0 then Except.error "Experience must be non-negative" else Except.ok (some x)

/-- Whole-model validation as pydantic performs it: run every field
validator; the model has no cross-field (model-level) validator. -/
def validateSearchFilters (f : SearchFilters) : Except String SearchFilters :=
  match validate_experience f.experience_min, validate_experience f.experience_max with
  | Except.ok mn, Except.ok mx =>
      Except.ok { f with must_skills := normalize_skills f.must_skills,
                         nice_skills := normalize_skills f.nice_skills,
                         experience_min := mn, experience_max := mx }
  | Except.error e, _ => Except.error e
  | _, Except.error e => Except.error e

/-! Python truthiness of the values `filters.get(...)` can yield. -/

/-- Truthiness of an optional string (`None` and `""` are falsy). -/
def truthyStr : Option String → Bool
  | none => false
  | some s => !(s == "")

/-- Truthiness of an optional number (`None` and `0` are falsy). -/
def truthyNum : Option ℚ → Bool
  | none => false
  | some x => if x = 0 then false else true

/-! ## `app/services/search_logic.py` — hybrid search -/

/-- One clause of the Elasticsearch bool query built by
`_filter_candidates_with_elasticsearch`. -/
inductive ESClause where
  | rangeClause (field : String) (gte lte : Option ℚ) : ESClause
  | matchClause (field : String) (query fuzziness : String) : ESClause
  | termsClause (field : String) (values : List String) : ESClause
  | idsClause (values : List String) : ESClause
deriving DecidableEq

/-- The query sent to Elasticsearch: a bool query, or `match_all` when all
three clause lists are empty. -/
inductive ESQuery where
  | boolQuery (must should must_not : List ESClause) : ESQuery
  | matchAll : ESQuery
deriving DecidableEq

/-- The `gte` entry of `experience_range` (`if filters.get("experience_min"):`). -/
def experienceRangeGte (f : SearchFilters) : Option ℚ :=
  if truthyNum f.experience_min then f.experience_min else none

/-- The `lte` entry of `experience_range` (`if filters.get("experience_max"):`). -/
def experienceRangeLte (f : SearchFilters) : Option ℚ :=
  if truthyNum f.experience_max then f.experience_max else none

/-- The `must_queries` list, in the order the source appends clauses. -/
def mustQueries (f : SearchFilters) : List ESClause :=
  (if (experienceRangeGte f).isSome || (experienceRangeLte f).isSome then
    [ESClause.rangeClause "experience_years" (experienceRangeGte f) (experienceRangeLte f)]
  else [])
  ++ (if truthyStr f.location then
        [ESClause.matchClause "location" (f.location.getD "") "AUTO"]
      else [])
  ++ f.must_skills.map (fun skill => ESClause.matchClause "skills" (lowerStr skill) "AUTO")
  ++ (if f.work_modes.isEmpty then [] else [ESClause.termsClause "work_modes" f.work_modes])

/-- The `should_queries` list. -/
def shouldQueries (f : SearchFilters) : List ESClause :=
  f.nice_skills.map (fun skill => ESClause.matchClause "skills" (lowerStr skill) "AUTO")

/-- The `must_not_queries` list. -/
def mustNotQueries (f : SearchFilters) : List ESClause :=
  if f.exclude_ids.isEmpty then [] else [ESClause.idsClause f.exclude_ids]

/-- The `es_query` value: bool query, or `match_all` if all lists are empty. -/
def buildEsQuery (f : SearchFilters) : ESQuery :=
  if !(mustQueries f).isEmpty || !(shouldQueries f).isEmpty || !(mustNotQueries f).isEmpty then
    ESQuery.boolQuery (mustQueries f) (shouldQueries f) (mustNotQueries f)
  else ESQuery.matchAll

/-- A scored hit as returned by either store: `{"candidate_id": ..., "score": ...}`. -/
structure Hit where
  candidate_id : String
  score : ℚ
deriving DecidableEq

/-- Stable insertion of `x` into a list sorted by `key` descending: `x` goes
after every earlier element whose key is not smaller (the order Python's
stable `list.sort(key=..., reverse=True)` produces). -/
def insertDesc {α : Type} (key : α → ℚ) (x : α) : List α → List α
  | [] => [x]
  | y :: ys => if key y < key x then x :: y :: ys else y :: insertDesc key x ys

/-- Stable sort by `key` descending (model of `list.sort(key=..., reverse=True)`). -/
def sortByKeyDesc {α : Type} (key : α → ℚ) (l : List α) : List α :=
  l.foldl (fun acc x => insertDesc key x acc) []

/-- `_filter_candidates_with_elasticsearch`: on success, the hits sorted by
score descending; any exception is caught and yields `[]`. -/
def _filter_candidates_with_elasticsearch (esResponse : Except Unit (List Hit)) : List Hit :=
  match esResponse with
  | Except.error _ => []
  | Except.ok hits => sortByKeyDesc Hit.score hits

/-- `_rank_candidates_with_milvus`: returns `[]` without touching Milvus when
the allowlist or the query text is empty; otherwise performs the Milvus
search, whose outcome (including a raised exception — there is no
try/except in this method) is the `milvusSearch` parameter. -/
def _rank_candidates_with_milvus (milvusSearch : Except Unit (List Hit))
    (query_text : String) (candidate_ids : List String) : Except Unit (List Hit) :=
  if candidate_ids.isEmpty || query_text.isEmpty then Except.ok []
  else milvusSearch

/-- `RRF_K = getattr(settings, 'RRF_K', 60)` with the default settings. -/
def RRF_K : ℚ := 60

/-- One `rrf_scores[key] += inc` update of the insertion-ordered dict:
add to the existing entry, or append a fresh key at the end. -/
def bump : List (String × ℚ) → String → ℚ → List (String × ℚ)
  | [], cid, inc => [(cid, inc)]
  | (k, v) :: rest, cid, inc =>
      if k = cid then (k, v + inc) :: rest else (k, v) :: bump rest cid inc

/-- The `for rank, doc in enumerate(results): rrf_scores[id] += 1/(RRF_K+rank+1)`
loop, starting at rank `rank`. -/
def accumRanks : List (String × ℚ) → List String → ℕ → List (String × ℚ)
  | d, [], _ => d
  | d, cid :: rest, rank =>
      accumRanks (bump d cid ((1 : ℚ) / (RRF_K + (rank : ℚ) + 1))) rest (rank + 1)

/-- The `rrf_scores` dict after both enumeration loops (ES list first, then
Milvus list), as an insertion-ordered association list. -/
def rrf_scores (L V : List String) : List (String × ℚ) :=
  accumRanks (accumRanks [] L 0) V 0

/-- Lines 136–149 of `search_logic.py`: build `rrf_scores`, return `[]` if it
is empty, else the items sorted by fused score descending (stable). -/
def hybridFuse (L V : List String) : List (String × ℚ) :=
  if (rrf_scores L V).isEmpty then [] else sortByKeyDesc Prod.snd (rrf_scores L V)

/-- `semantic_query_text`: `", ".join(parts)` where `parts` is the role (if
truthy) followed by the nice skills. -/
def semanticQueryText (f : SearchFilters) : String :=
  String.intercalate ", " ((if truthyStr f.role then [f.role.getD ""] else []) ++ f.nice_skills)

/-- `hybrid_search`: Stage 1 lexical filter, early `[]` on empty result,
Stage 2 Milvus rerank (an exception there propagates — no try/except),
Stage 3 RRF fusion. -/
def hybrid_search (f : SearchFilters) (esResponse milvusSearch : Except Unit (List Hit)) :
    Except Unit (List (String × ℚ)) :=
  if (_filter_candidates_with_elasticsearch esResponse).isEmpty then Except.ok []
  else
    match _rank_candidates_with_milvus milvusSearch (semanticQueryText f)
        ((_filter_candidates_with_elasticsearch esResponse).map Hit.candidate_id) with
    | Except.error e => Except.error e
    | Except.ok milvus_results =>
        Except.ok (hybridFuse ((_filter_candidates_with_elasticsearch esResponse).map Hit.candidate_id)
          (milvus_results.map Hit.candidate_id))

/-! ## `app/api/v1/search.py` — the HTTP search endpoint -/

/-- The two outcomes of `search_candidates_endpoint`: a results payload, or
the catch-all `HTTPException(status_code=500)`. -/
inductive EndpointResponse where
  | results (items : List (String × ℚ)) : EndpointResponse
  | internalServerError : EndpointResponse
deriving DecidableEq

/-- `search_candidates_endpoint`: any exception from `hybrid_search` is
turned into a 500 response. -/
def search_candidates_endpoint (f : SearchFilters)
    (esResponse milvusSearch : Except Unit (List Hit)) : EndpointResponse :=
  match hybrid_search f esResponse milvusSearch with
  | Except.ok r => EndpointResponse.results r
  | Except.error _ => EndpointResponse.internalServerError

/-- HTTP status code of an endpoint response. -/
def statusCode : EndpointResponse → ℕ
  | EndpointResponse.results _ => 200
  | EndpointResponse.internalServerError => 500

/-- A POST to `/v1/search/`: FastAPI validates the body first (422 on a
validation error), then the endpoint runs. -/
def http_post_search (raw : SearchFilters)
    (esResponse milvusSearch : Except Unit (List Hit)) : ℕ :=
  match validateSearchFilters raw with
  | Except.error _ => 422
  | Except.ok f => statusCode (search_candidates_endpoint f esResponse milvusSearch)

/-! ## `app/services/consumer.py` — the message handler -/

/-- Decoded message payload; only the `id` key matters to the handler
(`data.get("id")`). -/
structure Payload where
  id : Option String := none
deriving DecidableEq

/-- Decidable equality for `Except` outcomes (used to evaluate the model on
concrete inputs). -/
instance instDecEqExcept {ε α : Type} [DecidableEq ε] [DecidableEq α] :
    DecidableEq (Except ε α) := fun x y =>
  match x, y with
  | Except.error a, Except.error b =>
      if h : a = b then Decidable.isTrue (h ▸ rfl)
      else Decidable.isFalse (fun he => h (Except.error.inj he))
  | Except.ok a, Except.ok b =>
      if h : a = b then Decidable.isTrue (h ▸ rfl)
      else Decidable.isFalse (fun he => h (Except.ok.inj he))
  | Except.error _, Except.ok _ => Decidable.isFalse (fun he => Except.noConfusion he)
  | Except.ok _, Except.error _ => Decidable.isFalse (fun he => Except.noConfusion he)

/-- A consumed message: routing key plus the outcome of
`json.loads(message.body.decode())`. -/
structure ConsumedMessage where
  routing_key : String
  body : Except Unit Payload
deriving DecidableEq

/-- Outcomes of the store operations the indexer performs for one message;
`Except.error` means the underlying client raised. -/
structure IndexerOps where
  lexicalWrite : Except Unit Unit
  vectorUpsertInner : Except Unit Unit
  lexicalDeleteInner : Except Unit Unit
  vectorDeleteInner : Except Unit Unit
deriving DecidableEq

/-- `Indexer.index_document`: raises (`KeyError`/`ValueError`) when the
payload has no `id`; otherwise the Elasticsearch write's outcome
propagates — there is no try/except here. -/
def index_document (data : Payload) (lexicalWrite : Except Unit Unit) : Except Unit Unit :=
  match data.id with
  | none => Except.error ()
  | some _ => lexicalWrite

/-- `Indexer.upsert_vector`: the whole body is wrapped in
`try/except Exception` that only logs, so the call returns normally
whatever the embed/upsert outcome was. -/
def upsert_vector (vectorUpsertInner : Except Unit Unit) : Except Unit Unit :=
  match vectorUpsertInner with
  | Except.ok _ => Except.ok ()
  | Except.error _ => Except.ok ()

/-- `Indexer.delete_document`: catches and logs every exception. -/
def delete_document (lexicalDeleteInner : Except Unit Unit) : Except Unit Unit :=
  match lexicalDeleteInner with
  | Except.ok _ => Except.ok ()
  | Except.error _ => Except.ok ()

/-- `Indexer.delete_vector`: catches and logs every exception. -/
def delete_vector (vectorDeleteInner : Except Unit Unit) : Except Unit Unit :=
  match vectorDeleteInner with
  | Except.ok _ => Except.ok ()
  | Except.error _ => Except.ok ()

/-- What the handler does with the message in the end. -/
inductive MessageOutcome where
  | ack : MessageOutcome
  | rejectNoRequeue : MessageOutcome
deriving DecidableEq

/-- `RabbitMQConsumer.on_message`: dispatch on the routing key; any exception
inside the `try` block leads to `reject(requeue=False)`; every path that
falls through the dispatch (including a delete without `id`, which only
logs, and an unrecognized routing key, which matches no branch) reaches
`message.ack()`. -/
def on_message (msg : ConsumedMessage) (ops : IndexerOps) : MessageOutcome :=
  match msg.body with
  | Except.error _ => MessageOutcome.rejectNoRequeue
  | Except.ok data =>
    if msg.routing_key = "candidate.created" ∨ msg.routing_key = "candidate.updated" then
      match index_document data ops.lexicalWrite with
      | Except.error _ => MessageOutcome.rejectNoRequeue
      | Except.ok _ =>
        match upsert_vector ops.vectorUpsertInner with
        | Except.error _ => MessageOutcome.rejectNoRequeue
        | Except.ok _ => MessageOutcome.ack
    else if msg.routing_key = "candidate.deleted" then
      match data.id with
      | some _ =>
        match delete_document ops.lexicalDeleteInner, delete_vector ops.vectorDeleteInner with
        | Except.ok _, Except.ok _ => MessageOutcome.ack
        | _, _ => MessageOutcome.rejectNoRequeue
      | none => MessageOutcome.ack
    else MessageOutcome.ack

/-! ## `app/services/indexer.py` — document projection and full reindex -/

/-- One entry of the candidate `skills` array. -/
structure SkillEntry where
  skill : String
deriving DecidableEq

/-- One entry of the candidate `projects` array. -/
structure ProjectEntry where
  title : String := ""
  description : String := ""
deriving DecidableEq

/-- One entry of the candidate `experiences` array. -/
structure ExperienceEntry where
  position : String := ""
  company : String := ""
  responsibilities : String := ""
deriving DecidableEq

/-- A raw candidate object from the upstream API / bus payload. -/
structure Candidate where
  id : Option String := none
  telegram_id : Int := 0
  headline_role : Option String := none
  experience_years : Option ℚ := none
  location : Option String := none
  work_modes : List String := []
  skills : List SkillEntry := []
  projects : List ProjectEntry := []
  experiences : List ExperienceEntry := []
deriving DecidableEq

/-- The document written to the lexical store. -/
structure LexicalDoc where
  id : String
  telegram_id : Int
  headline_role : Option String
  experience_years : Option ℚ
  location : Option String
  work_modes : List String
  skills : List String
deriving DecidableEq

/-- `Indexer._format_candidate_for_es`: rejects candidates without `id`;
builds the lexical document with `skill["skill"].lower()` for each skill. -/
def _format_candidate_for_es (c : Candidate) : Except String LexicalDoc :=
  match c.id with
  | none => Except.error "Candidate data missing 'id'"
  | some cid =>
      Except.ok { id := cid, telegram_id := c.telegram_id, headline_role := c.headline_role,
                  experience_years := c.experience_years, location := c.location,
                  work_modes := c.work_modes,
                  skills := c.skills.map (fun s => lowerStr s.skill) }

/-- One bulk action of `Indexer._create_es_actions`. -/
structure ESAction where
  index_name : String
  doc_id : String
  source : LexicalDoc
deriving DecidableEq

/-- `Indexer._create_es_actions`: formats every candidate via
`_format_candidate_for_es` (the first failure propagates out of the
generator). -/
def _create_es_actions (candidates : List Candidate) (index_name : String) :
    Except String (List ESAction) :=
  candidates.mapM (fun c =>
    (_format_candidate_for_es c).map (fun d => { index_name := index_name, doc_id := d.id, source := d }))

/-- `CANDIDATE_ALIAS = getattr(settings, 'CANDIDATE_ALIAS', 'candidates')`. -/
def CANDIDATE_ALIAS : String := "candidates"

/-- `BATCH_SIZE = getattr(settings, "BATCH_SIZE", 500)`. -/
def BATCH_SIZE : ℕ := 500

/-- `new_index_name = f"{CANDIDATE_ALIAS}-{int(time.time())}"`. -/
def newIndexName (ts : ℕ) : String := CANDIDATE_ALIAS ++ "-" ++ toString ts

/-- Observable store operations issued by `run_full_reindex`, in order. -/
inductive ReindexOp where
  | createIndex (name : String) : ReindexOp
  | fetchBatch (limit offset : ℕ) : ReindexOp
  | encodeBatch (count : ℕ) : ReindexOp
  | bulkIndex (index_name : String) (count : ℕ) : ReindexOp
  | dropCollection : ReindexOp
  | createCollection : ReindexOp
  | insertVectors (count : ℕ) : ReindexOp
  | getAlias : ReindexOp
  | updateAliases (new_index : String) (removed : List String) : ReindexOp
  | deleteIndex (name : String) : ReindexOp
deriving DecidableEq

/-- The `while True` loop of `run_full_reindex`, driven by the successive
batches the upstream API returns (an exhausted list means the API keeps
returning `[]`). Per iteration: fetch, stop if empty, encode, bulk-index
into the new index, and — only on the first iteration (`offset == 0`) —
drop the Milvus collection if it exists and recreate it, then insert the
batch vectors. -/
def reindexLoop (new_index : String) (hasCol : Bool) :
    List (List Candidate) → ℕ → List ReindexOp
  | [], offset => [ReindexOp.fetchBatch BATCH_SIZE offset]
  | b :: rest, offset =>
    if b.isEmpty then [ReindexOp.fetchBatch BATCH_SIZE offset]
    else
      ReindexOp.fetchBatch BATCH_SIZE offset :: ReindexOp.encodeBatch b.length ::
      ReindexOp.bulkIndex new_index b.length ::
      ((if offset = 0 then
          (if hasCol then [ReindexOp.dropCollection] else []) ++ [ReindexOp.createCollection]
        else [])
       ++ (ReindexOp.insertVectors b.length :: reindexLoop new_index hasCol rest (offset + BATCH_SIZE)))

/-- `Indexer.run_full_reindex` as the ordered trace of store operations it
issues: create the new physical index, run the batch loop, then look up
the alias targets, update the alias, and delete each old index. -/
def run_full_reindex (ts : ℕ) (hasCol : Bool) (batches : List (List Candidate))
    (oldIndices : List String) : List ReindexOp :=
  ReindexOp.createIndex (newIndexName ts) ::
  (reindexLoop (newIndexName ts) hasCol batches 0
   ++ (ReindexOp.getAlias :: ReindexOp.updateAliases (newIndexName ts) oldIndices ::
       oldIndices.map ReindexOp.deleteIndex))

/-! ## Derived notions used to state the properties -/

/-- First-occurrence deduplication (the key order of a Python dict built by
repeated `+=` updates). -/
def dedupFirst (l : List String) : List String :=
  l.foldl (fun acc x => if x ∈ acc then acc else acc ++ [x]) []

/-- Total score associated with a key in an association list (sums over
duplicate keys, 0 if absent). -/
def scoreOf : List (String × ℚ) → String → ℚ
  | [], _ => 0
  | (k, v) :: rest, a => if k = a then v + scoreOf rest a else scoreOf rest a

/-- Sum of the RRF contributions of `a` over a ranked id list, with ranks
starting at `r`. -/
def rrfSumAux : List String → ℕ → String → ℚ
  | [], _, _ => 0
  | x :: rest, r, a =>
      (if x = a then (1 : ℚ) / (RRF_K + (r : ℚ) + 1) else 0) + rrfSumAux rest (r + 1) a

/-- Sum of the RRF contributions of `a` over a ranked id list (zero-based). -/
def rrfSum (ids : List String) (a : String) : ℚ := rrfSumAux ids 0 a

/-- Zero-based rank of the first occurrence of `a` in a list. -/
def rankIn : List String → String → ℕ
  | [], _ => 0
  | x :: rest, a => if x = a then 0 else rankIn rest a + 1

/-- Order produced by a stable descending sort with key `key` from a list
pairwise-ordered by `S`: strictly larger key first, ties in `S` order. -/
def Rkey {α : Type} (key : α → ℚ) (S : α → α → Prop) (a b : α) : Prop :=
  key b < key a ∨ (key a = key b ∧ S a b)

/-- Whether a clause is a `range` clause. -/
def isRange : ESClause → Bool
  | ESClause.rangeClause _ _ _ => true
  | _ => false

/-! ## Claim C1 — ANN failure handling of the search endpoint -/

/-- Claim C1: the claim asserts that when the ANN (Milvus) search raises
while the lexical store is healthy, `hybrid_search` degrades to the
lexical-only ranking and the endpoint still returns a result response.
The code has no try/except around the Milvus stage: on a concrete input
with a healthy, non-empty lexical stage and a raising ANN stage,
`hybrid_search` propagates the exception and the endpoint answers 500. -/
theorem hybrid_search_ann_failure_propagates_500 :
    _filter_candidates_with_elasticsearch
        (Except.ok [{ candidate_id := "a", score := 1 }]) =
      [{ candidate_id := "a", score := 1 }] ∧
    hybrid_search { role := some "backend developer" }
        (Except.ok [{ candidate_id := "a", score := 1 }]) (Except.error ()) =
      Except.error () ∧
    statusCode (search_candidates_endpoint { role := some "backend developer" }
        (Except.ok [{ candidate_id := "a", score := 1 }]) (Except.error ())) = 500 := by
  decide

/-! ## Claim C2 — no cross-field validation of the experience bounds -/

/-- Claim C2: the claim asserts that a request with
`experience_max < experience_min` is rejected with a 4xx status. The model
has no cross-field validator: on the concrete request
`experience_min = 5, experience_max = 2` validation succeeds unchanged and
the endpoint answers 200. -/
theorem validation_accepts_inverted_experience_bounds :
    validateSearchFilters { experience_min := some 5, experience_max := some 2 } =
      Except.ok { experience_min := some 5, experience_max := some 2 } ∧
    http_post_search { experience_min := some 5, experience_max := some 2 }
      (Except.ok []) (Except.ok []) = 200 := by
  decide

/-! ## Claim C3 — messages that fall through the dispatch are acked -/

/-- Claim C3: the claim asserts that a `candidate.deleted` message without
an `id`, and any message with an unrecognized routing key, are rejected
without requeue. In the handler both paths fall through the dispatch to
`message.ack()`: on the concrete messages below the outcome is `ack`. -/
theorem on_message_acks_missing_id_and_unknown_key :
    on_message { routing_key := "candidate.deleted", body := Except.ok { id := none } }
      { lexicalWrite := Except.ok (), vectorUpsertInner := Except.ok (),
        lexicalDeleteInner := Except.ok (), vectorDeleteInner := Except.ok () } =
      MessageOutcome.ack ∧
    on_message { routing_key := "candidate.archived", body := Except.ok { id := some "x" } }
      { lexicalWrite := Except.ok (), vectorUpsertInner := Except.ok (),
        lexicalDeleteInner := Except.ok (), vectorDeleteInner := Except.ok () } =
      MessageOutcome.ack := by
  decide

/-! ## Claim C4 — which store-write failures reach the DLQ -/

/-- Counterexample to claim C4 as stated: a `candidate.created` message whose
vector upsert raises is nevertheless acknowledged, because
`Indexer.upsert_vector` catches and logs every exception. -/
theorem on_message_acks_when_vector_upsert_fails :
    on_message { routing_key := "candidate.created", body := Except.ok { id := some "c1" } }
      { lexicalWrite := Except.ok (), vectorUpsertInner := Except.error (),
        lexicalDeleteInner := Except.ok (), vectorDeleteInner := Except.ok () } =
      MessageOutcome.ack := by
  decide

/-- Claim C4 (amended): for a message with an `id` in its payload, the
handler rejects without requeue exactly when the lexical write raises on
the created/updated path; vector upsert failures, and any store failure on
the delete path, are caught inside the indexer and the message is acked. -/
theorem on_message_reject_iff_lexical_write_fails
    (data : Payload) (cid : String) (ops : IndexerOps) (hid : data.id = some cid) :
    (on_message { routing_key := "candidate.created", body := Except.ok data } ops =
      match ops.lexicalWrite with
      | Except.error _ => MessageOutcome.rejectNoRequeue
      | Except.ok _ => MessageOutcome.ack) ∧
    (on_message { routing_key := "candidate.updated", body := Except.ok data } ops =
      match ops.lexicalWrite with
      | Except.error _ => MessageOutcome.rejectNoRequeue
      | Except.ok _ => MessageOutcome.ack) ∧
    (on_message { routing_key := "candidate.deleted", body := Except.ok data } ops =
      MessageOutcome.ack) := by
  obtain ⟨oid⟩ := data
  have hid2 : oid = some cid := hid
  subst hid2
  obtain ⟨lw, vu, ld, vd⟩ := ops
  cases lw <;> cases vu <;> cases ld <;> cases vd <;> exact ⟨rfl, rfl, rfl⟩

/-- Witness for the amended claim C4 at a concrete message: a failing
lexical write on `candidate.created` is rejected without requeue. -/
theorem on_message_reject_iff_lexical_write_fails_witness :
    on_message { routing_key := "candidate.created", body := Except.ok { id := some "c9" } }
      { lexicalWrite := Except.error (), vectorUpsertInner := Except.ok (),
        lexicalDeleteInner := Except.ok (), vectorDeleteInner := Except.ok () } =
      MessageOutcome.rejectNoRequeue :=
  (on_message_reject_iff_lexical_write_fails { id := some "c9" } "c9"
    { lexicalWrite := Except.error (), vectorUpsertInner := Except.ok (),
      lexicalDeleteInner := Except.ok (), vectorDeleteInner := Except.ok () } rfl).1

/-! ## Claim C7 — skill normalization in the lexical document -/

/-- Counterexample to claim C7 as stated: the skill `" Go "` is lowercased
but not trimmed — the stored element is `" go "`, while lowercasing and
trimming would give `"go"`. -/
theorem format_candidate_skills_not_trimmed :
    _format_candidate_for_es
        { id := some "c1", telegram_id := 7, skills := [{ skill := " Go " }] } =
      Except.ok { id := "c1", telegram_id := 7, headline_role := none,
                  experience_years := none, location := none, work_modes := [],
                  skills := [" go "] } ∧
    stripStr (lowerStr " Go ") = "go" ∧ (" go " : String) ≠ "go" := by
  decide

/-- Claim C7 (amended): `_format_candidate_for_es` rejects candidates without
`id`, and maps every skill entry to its lowercased (but untrimmed) skill
string; the full-reindex bulk writes build their documents through the
same function (`_create_es_actions`). -/
theorem format_candidate_lowercases_skills (c : Candidate) :
    (c.id = none → _format_candidate_for_es c = Except.error "Candidate data missing 'id'") ∧
    (∀ cid, c.id = some cid →
      _format_candidate_for_es c = Except.ok
        { id := cid, telegram_id := c.telegram_id, headline_role := c.headline_role,
          experience_years := c.experience_years, location := c.location,
          work_modes := c.work_modes,
          skills := c.skills.map (fun s => lowerStr s.skill) }) := by
  constructor
  · intro h
    simp [_format_candidate_for_es, h]
  · intro cid h
    simp [_format_candidate_for_es, h]

/-- Witness for the amended claim C7 at a concrete candidate. -/
theorem format_candidate_lowercases_skills_witness :
    _format_candidate_for_es { id := some "c1", skills := [{ skill := " Go " }] } =
      Except.ok { id := "c1", telegram_id := 0, headline_role := none,
                  experience_years := none, location := none, work_modes := [],
                  skills := [lowerStr " Go "] } :=
  (format_candidate_lowercases_skills
    { id := some "c1", skills := [{ skill := " Go " }] }).2 "c1" rfl

/-! ## Claim C8 — when the ANN collection is dropped during full reindex -/

/-- Counterexample to claim C8 as stated: when the very first `fetch_batch`
returns an empty array, `run_full_reindex` never drops nor recreates the
ANN collection (the drop/recreate sits inside the loop body, after the
emptiness check). -/
theorem run_full_reindex_empty_first_fetch_no_drop :
    ReindexOp.dropCollection ∉ run_full_reindex 0 true [] [] ∧
    ReindexOp.createCollection ∉ run_full_reindex 0 true [] [] := by
  decide

/-- Claim C8 (amended): the ANN collection is dropped (when it exists) and
recreated while the first non-empty batch is processed — after that
batch's fetch and lexical bulk write, before its vector insert; when the
first fetch returns an empty batch, the collection is never dropped nor
recreated. -/
theorem run_full_reindex_drop_in_first_nonempty_batch
    (ts : ℕ) (hasCol : Bool) (b : List Candidate) (rest : List (List Candidate))
    (olds : List String) (hb : b ≠ []) :
    (∃ tail, run_full_reindex ts hasCol (b :: rest) olds =
      ReindexOp.createIndex (newIndexName ts) :: ReindexOp.fetchBatch BATCH_SIZE 0 ::
      ReindexOp.encodeBatch b.length :: ReindexOp.bulkIndex (newIndexName ts) b.length ::
      ((if hasCol then [ReindexOp.dropCollection] else []) ++
        ReindexOp.createCollection :: ReindexOp.insertVectors b.length :: tail)) ∧
    ReindexOp.dropCollection ∉ run_full_reindex ts hasCol ([] :: rest) olds ∧
    ReindexOp.createCollection ∉ run_full_reindex ts hasCol ([] :: rest) olds := by
  have hbe : b.isEmpty = false := by
    cases b with
    | nil => cases hb rfl
    | cons x xs => rfl
  refine ⟨⟨reindexLoop (newIndexName ts) hasCol rest (0 + BATCH_SIZE) ++
      (ReindexOp.getAlias :: ReindexOp.updateAliases (newIndexName ts) olds ::
        olds.map ReindexOp.deleteIndex), ?_⟩, ?_, ?_⟩
  · cases hasCol <;> simp [run_full_reindex, reindexLoop, hbe]
  · simp [run_full_reindex, reindexLoop]
  · simp [run_full_reindex, reindexLoop]

/-- Witness for the amended claim C8 at a concrete one-batch reindex. -/
theorem run_full_reindex_drop_witness :
    ∃ tail, run_full_reindex 0 true [[{ id := some "w" }]] [] =
      ReindexOp.createIndex (newIndexName 0) :: ReindexOp.fetchBatch BATCH_SIZE 0 ::
      ReindexOp.encodeBatch ([({ id := some "w" } : Candidate)]).length ::
      ReindexOp.bulkIndex (newIndexName 0) ([({ id := some "w" } : Candidate)]).length ::
      ((if true then [ReindexOp.dropCollection] else []) ++
        ReindexOp.createCollection ::
        ReindexOp.insertVectors ([({ id := some "w" } : Candidate)]).length :: tail) :=
  (run_full_reindex_drop_in_first_nonempty_batch 0 true [{ id := some "w" }] [] []
    (List.cons_ne_nil _ _)).1

/-! ## Claim C9 — the experience range clause and zero bounds -/

/-- Counterexample to claim C9 as stated: `experience_min = 0` is set but
falsy in Python, so no range clause is built (the query degenerates to
`match_all`); and with `experience_min = 0, experience_max = 5` the range
clause carries no lower bound. -/
theorem es_query_zero_experience_min_no_range :
    ({ experience_min := some 0 } : SearchFilters).experience_min.isSome = true ∧
    buildEsQuery { experience_min := some 0 } = ESQuery.matchAll ∧
    mustQueries { experience_min := some 0, experience_max := some 5 } =
      [ESClause.rangeClause "experience_years" none (some 5)] := by
  decide

/-- Claim C9 (amended): the must list contains a range clause on
`experience_years` exactly when `experience_min` or `experience_max` is
set and nonzero (Python truthiness), and each bound appears in the clause
exactly when it is itself set and nonzero. -/
theorem mustQueries_range_clause_characterization (f : SearchFilters) :
    (mustQueries f).filter isRange =
      (if truthyNum f.experience_min || truthyNum f.experience_max then
        [ESClause.rangeClause "experience_years"
          (if truthyNum f.experience_min then f.experience_min else none)
          (if truthyNum f.experience_max then f.experience_max else none)]
      else []) := by
  have h1 : (experienceRangeGte f).isSome = truthyNum f.experience_min := by
    unfold experienceRangeGte
    cases hm : f.experience_min with
    | none => simp [truthyNum]
    | some x => by_cases hx : x = 0 <;> simp [truthyNum, hx]
  have h2 : (experienceRangeLte f).isSome = truthyNum f.experience_max := by
    unfold experienceRangeLte
    cases hm : f.experience_max with
    | none => simp [truthyNum]
    | some x => by_cases hx : x = 0 <;> simp [truthyNum, hx]
  have hskills : ∀ (l : List String),
      (l.map (fun skill => ESClause.matchClause "skills" (lowerStr skill) "AUTO")).filter
        isRange = [] := by
    intro l
    induction l with
    | nil => rfl
    | cons a t ih => simp [isRange, ih]
  have hloc : ((if truthyStr f.location then
      [ESClause.matchClause "location" (f.location.getD "") "AUTO"] else []).filter
        isRange) = [] := by
    split <;> simp [isRange]
  have hwm : ((if f.work_modes.isEmpty then []
      else [ESClause.termsClause "work_modes" f.work_modes]).filter isRange) = [] := by
    split <;> simp [isRange]
  unfold mustQueries
  rw [List.filter_append, List.filter_append, List.filter_append, hskills, hloc, hwm]
  simp only [List.append_nil, List.nil_append]
  rw [show ((experienceRangeGte f).isSome || (experienceRangeLte f).isSome) =
      (truthyNum f.experience_min || truthyNum f.experience_max) from by rw [h1, h2]]
  unfold experienceRangeGte experienceRangeLte
  split <;> simp [isRange]

/-! ## Properties of the stable descending sort -/

/-- Membership in an `insertDesc` insertion. -/
theorem mem_insertDesc {α : Type} (key : α → ℚ) (x a : α) :
    ∀ (l : List α), a ∈ insertDesc key x l ↔ a = x ∨ a ∈ l := by
  intro l
  induction l with
  | nil => simp [insertDesc]
  | cons y ys ih =>
    by_cases h : key y < key x
    · simp [insertDesc, h]
    · simp [insertDesc, h, ih]
      tauto

/-- `insertDesc` permutes the element onto the list. -/
theorem insertDesc_perm {α : Type} (key : α → ℚ) (x : α) :
    ∀ (l : List α), (insertDesc key x l).Perm (x :: l) := by
  intro l
  induction l with
  | nil => simp [insertDesc]
  | cons y ys ih =>
    by_cases h : key y < key x
    · simp [insertDesc, h]
    · simp only [insertDesc, if_neg h]
      exact (ih.cons y).trans (List.Perm.swap x y ys)

/-- The insertion-sort fold permutes its input onto the accumulator. -/
theorem foldl_insertDesc_perm {α : Type} (key : α → ℚ) :
    ∀ (l acc : List α),
      (l.foldl (fun acc x => insertDesc key x acc) acc).Perm (acc ++ l) := by
  intro l
  induction l with
  | nil => intro acc; simp
  | cons x xs ih =>
    intro acc
    have h1 := ih (insertDesc key x acc)
    have h2 : (insertDesc key x acc ++ xs).Perm ((x :: acc) ++ xs) :=
      (insertDesc_perm key x acc).append_right xs
    have h3 : ((x :: acc) ++ xs).Perm (acc ++ x :: xs) := by
      have hp : (acc ++ x :: xs).Perm (x :: (acc ++ xs)) := List.perm_middle
      simpa using hp.symm
    exact (h1.trans h2).trans h3

/-- `sortByKeyDesc` is a permutation of its input. -/
theorem sortByKeyDesc_perm {α : Type} (key : α → ℚ) (l : List α) :
    (sortByKeyDesc key l).Perm l := by
  simpa using foldl_insertDesc_perm key l []

/-- Inserting an element that every accumulator element precedes (in `S`)
preserves the stable-descending order `Rkey key S`. -/
theorem pairwise_insertDesc {α : Type} (key : α → ℚ) (S : α → α → Prop) (x : α) :
    ∀ (acc : List α), acc.Pairwise (Rkey key S) → (∀ y ∈ acc, S y x) →
      (insertDesc key x acc).Pairwise (Rkey key S) := by
  intro acc
  induction acc with
  | nil => intro _ _; simp [insertDesc]
  | cons y ys ih =>
    intro hp hS
    rw [List.pairwise_cons] at hp
    obtain ⟨hy, hys⟩ := hp
    by_cases h : key y < key x
    · simp only [insertDesc, if_pos h]
      apply List.Pairwise.cons
      · intro z hz
        rcases List.mem_cons.mp hz with rfl | hz2
        · exact Or.inl h
        · rcases hy z hz2 with h2 | ⟨h2, _⟩
          · exact Or.inl (h2.trans h)
          · exact Or.inl (h2 ▸ h)
      · exact List.Pairwise.cons hy hys
    · simp only [insertDesc, if_neg h]
      apply List.Pairwise.cons
      · intro z hz
        rcases (mem_insertDesc key x z ys).mp hz with rfl | hz2
        · rcases lt_or_eq_of_le (le_of_not_lt h) with h2 | h2
          · exact Or.inl h2
          · exact Or.inr ⟨h2.symm, hS y (List.mem_cons_self y ys)⟩
        · exact hy z hz2
      · exact ih hys (fun w hw => hS w (List.mem_cons_of_mem _ hw))

/-- The insertion-sort fold turns an `S`-ordered input into an
`Rkey key S`-ordered output (sortedness plus stability). -/
theorem pairwise_foldl_insertDesc {α : Type} (key : α → ℚ) (S : α → α → Prop) :
    ∀ (l acc : List α), acc.Pairwise (Rkey key S) →
      (∀ y ∈ acc, ∀ x ∈ l, S y x) → l.Pairwise S →
      (l.foldl (fun acc x => insertDesc key x acc) acc).Pairwise (Rkey key S) := by
  intro l
  induction l with
  | nil => intro acc h _ _; simpa using h
  | cons x xs ih =>
    intro acc hacc hcross hl
    rw [List.pairwise_cons] at hl
    obtain ⟨hx, hxs⟩ := hl
    show (xs.foldl (fun acc x => insertDesc key x acc) (insertDesc key x acc)).Pairwise _
    apply ih
    · exact pairwise_insertDesc key S x acc hacc
        (fun y hy => hcross y hy x (List.mem_cons_self x xs))
    · intro y hy z hz
      rcases (mem_insertDesc key x y acc).mp hy with rfl | hy2
      · exact hx z hz
      · exact hcross y hy2 z (List.mem_cons_of_mem _ hz)
    · exact hxs

/-- Stable descending sort of an `S`-ordered list is `Rkey key S`-ordered. -/
theorem pairwise_sortByKeyDesc {α : Type} (key : α → ℚ) (S : α → α → Prop)
    (l : List α) (hl : l.Pairwise S) :
    (sortByKeyDesc key l).Pairwise (Rkey key S) :=
  pairwise_foldl_insertDesc key S l [] List.Pairwise.nil (by simp) hl

/-! ## Properties of the `rrf_scores` accumulation -/

/-- Keys after a `bump`: unchanged if the key exists, appended otherwise. -/
theorem map_fst_bump (cid : String) (inc : ℚ) :
    ∀ (d : List (String × ℚ)),
      (bump d cid inc).map Prod.fst =
        if cid ∈ d.map Prod.fst then d.map Prod.fst else d.map Prod.fst ++ [cid] := by
  intro d
  induction d with
  | nil => simp [bump]
  | cons p rest ih =>
    obtain ⟨k, v⟩ := p
    by_cases h : k = cid
    · simp [bump, h]
    · have h' : ¬ cid = k := fun e => h e.symm
      by_cases h2 : cid ∈ rest.map Prod.fst <;> simp [bump, h, h', h2, ih]

/-- Keys after an enumeration loop: the first-occurrence fold over the ids. -/
theorem map_fst_accumRanks :
    ∀ (ids : List String) (d : List (String × ℚ)) (r : ℕ),
      (accumRanks d ids r).map Prod.fst =
        ids.foldl (fun acc x => if x ∈ acc then acc else acc ++ [x]) (d.map Prod.fst) := by
  intro ids
  induction ids with
  | nil => intro d r; rfl
  | cons cid rest ih =>
    intro d r
    calc (accumRanks d (cid :: rest) r).map Prod.fst
        = (accumRanks (bump d cid ((1 : ℚ) / (RRF_K + (r : ℚ) + 1))) rest (r + 1)).map
            Prod.fst := rfl
      _ = rest.foldl (fun acc x => if x ∈ acc then acc else acc ++ [x])
            ((bump d cid ((1 : ℚ) / (RRF_K + (r : ℚ) + 1))).map Prod.fst) := ih _ _
      _ = rest.foldl (fun acc x => if x ∈ acc then acc else acc ++ [x])
            (if cid ∈ d.map Prod.fst then d.map Prod.fst else d.map Prod.fst ++ [cid]) := by
            rw [map_fst_bump]
      _ = (cid :: rest).foldl (fun acc x => if x ∈ acc then acc else acc ++ [x])
            (d.map Prod.fst) := rfl

/-- The key order of `rrf_scores` is first-occurrence order over `L ++ V`. -/
theorem map_fst_rrf_scores (L V : List String) :
    (rrf_scores L V).map Prod.fst = dedupFirst (L ++ V) := by
  unfold rrf_scores dedupFirst
  rw [map_fst_accumRanks, map_fst_accumRanks, List.foldl_append]
  rfl

/-- Membership in the first-occurrence fold. -/
theorem mem_dedupFold (x : String) :
    ∀ (l acc : List String),
      (x ∈ l.foldl (fun acc y => if y ∈ acc then acc else acc ++ [y]) acc) ↔
        x ∈ acc ∨ x ∈ l := by
  intro l
  induction l with
  | nil => intro acc; simp
  | cons y ys ih =>
    intro acc
    show (x ∈ ys.foldl (fun acc y => if y ∈ acc then acc else acc ++ [y])
        (if y ∈ acc then acc else acc ++ [y])) ↔ _
    rw [ih]
    by_cases h : y ∈ acc
    · rw [if_pos h]
      constructor
      · rintro (ha | hy)
        · exact Or.inl ha
        · exact Or.inr (List.mem_cons_of_mem _ hy)
      · rintro (ha | hxy)
        · exact Or.inl ha
        · rcases List.mem_cons.mp hxy with rfl | hy
          · exact Or.inl h
          · exact Or.inr hy
    · rw [if_neg h]
      simp only [List.mem_append, List.mem_singleton, List.mem_cons]
      tauto

/-- The first-occurrence fold preserves `Nodup`. -/
theorem nodup_dedupFold :
    ∀ (l acc : List String), acc.Nodup →
      (l.foldl (fun acc y => if y ∈ acc then acc else acc ++ [y]) acc).Nodup := by
  intro l
  induction l with
  | nil => intro acc h; simpa using h
  | cons y ys ih =>
    intro acc h
    show (ys.foldl (fun acc y => if y ∈ acc then acc else acc ++ [y])
        (if y ∈ acc then acc else acc ++ [y])).Nodup
    apply ih
    by_cases hy : y ∈ acc
    · simpa [hy] using h
    · rw [if_neg hy]
      rw [List.nodup_append]
      exact ⟨h, List.nodup_singleton y, by simpa [List.disjoint_singleton] using hy⟩

/-- `dedupFirst` has no duplicate entries. -/
theorem dedupFirst_nodup (l : List String) : (dedupFirst l).Nodup :=
  nodup_dedupFold l [] List.Pairwise.nil

/-- `dedupFirst` keeps exactly the members of the list. -/
theorem mem_dedupFirst (x : String) (l : List String) : x ∈ dedupFirst l ↔ x ∈ l := by
  unfold dedupFirst
  rw [mem_dedupFold]
  simp

/-- `bump` adds `inc` to the total score of the bumped key only. -/
theorem scoreOf_bump (cid a : String) (inc : ℚ) :
    ∀ (d : List (String × ℚ)),
      scoreOf (bump d cid inc) a = scoreOf d a + (if cid = a then inc else 0) := by
  intro d
  induction d with
  | nil => by_cases hca : cid = a <;> simp [scoreOf, bump, hca]
  | cons p rest ih =>
    obtain ⟨k, v⟩ := p
    by_cases h : k = cid
    · subst h
      by_cases h2 : k = a
      · subst h2
        simp [scoreOf, bump]
        ring
      · simp [scoreOf, bump, h2]
    · by_cases h2 : k = a
      · subst h2
        simp [scoreOf, bump, h, ih]
        ring
      · simp [scoreOf, bump, h, h2, ih]

/-- An enumeration loop adds exactly the RRF contributions of a key. -/
theorem scoreOf_accumRanks (a : String) :
    ∀ (ids : List String) (d : List (String × ℚ)) (r : ℕ),
      scoreOf (accumRanks d ids r) a = scoreOf d a + rrfSumAux ids r a := by
  intro ids
  induction ids with
  | nil => intro d r; simp [accumRanks, rrfSumAux]
  | cons cid rest ih =>
    intro d r
    show scoreOf (accumRanks (bump d cid ((1 : ℚ) / (RRF_K + (r : ℚ) + 1))) rest (r + 1)) a = _
    rw [ih, scoreOf_bump]
    show _ = scoreOf d a + ((if cid = a then (1 : ℚ) / (RRF_K + (r : ℚ) + 1) else 0) +
      rrfSumAux rest (r + 1) a)
    ring

/-- A key that never occurs has total score 0. -/
theorem scoreOf_eq_zero_of_not_mem :
    ∀ (d : List (String × ℚ)) (a : String), a ∉ d.map Prod.fst → scoreOf d a = 0 := by
  intro d
  induction d with
  | nil => intro a _; rfl
  | cons p rest ih =>
    obtain ⟨k, v⟩ := p
    intro a ha
    have h1 : ¬ k = a := by
      intro e
      exact ha (by simp [e])
    have h2 : a ∉ rest.map Prod.fst := fun hm => ha (by simp [hm])
    simp [scoreOf, h1, ih a h2]

/-- In an association list with distinct keys, each stored value is the
total score of its key. -/
theorem snd_eq_scoreOf :
    ∀ (d : List (String × ℚ)), (d.map Prod.fst).Nodup → ∀ p ∈ d, p.2 = scoreOf d p.1 := by
  intro d
  induction d with
  | nil => intro _ p hp; cases hp
  | cons q rest ih =>
    obtain ⟨k, v⟩ := q
    intro hnd p hp
    rw [List.map_cons, List.nodup_cons] at hnd
    obtain ⟨hk, hnd⟩ := hnd
    rcases List.mem_cons.mp hp with rfl | hp2
    · simp [scoreOf, scoreOf_eq_zero_of_not_mem rest k hk]
    · have hne : ¬ k = p.1 := by
        intro e
        apply hk
        rw [e]
        exact List.mem_map.mpr ⟨p, hp2, rfl⟩
      simp [scoreOf, hne, ih hnd p hp2]

/-- Total score in the fused dict: the sum of both lists' contributions. -/
theorem scoreOf_rrf_scores (L V : List String) (a : String) :
    scoreOf (rrf_scores L V) a = rrfSum L a + rrfSum V a := by
  unfold rrf_scores rrfSum
  rw [scoreOf_accumRanks, scoreOf_accumRanks]
  show 0 + rrfSumAux L 0 a + rrfSumAux V 0 a = _
  ring

/-- The RRF denominators are positive. -/
theorem rrf_den_pos (r : ℕ) : (0 : ℚ) < RRF_K + (r : ℚ) + 1 := by
  unfold RRF_K
  positivity

/-- RRF contribution sums are nonnegative. -/
theorem rrfSumAux_nonneg (a : String) :
    ∀ (ids : List String) (r : ℕ), 0 ≤ rrfSumAux ids r a := by
  intro ids
  induction ids with
  | nil => intro r; simp [rrfSumAux]
  | cons x rest ih =>
    intro r
    show 0 ≤ (if x = a then (1 : ℚ) / (RRF_K + (r : ℚ) + 1) else 0) + rrfSumAux rest (r + 1) a
    apply add_nonneg _ (ih (r + 1))
    split
    · exact le_of_lt (div_pos one_pos (rrf_den_pos r))
    · exact le_refl 0

/-- The RRF contribution sum is positive exactly for occurring ids. -/
theorem rrfSumAux_pos_iff (a : String) :
    ∀ (ids : List String) (r : ℕ), (0 < rrfSumAux ids r a ↔ a ∈ ids) := by
  intro ids
  induction ids with
  | nil => intro r; simp [rrfSumAux]
  | cons x rest ih =>
    intro r
    by_cases h : x = a
    · subst h
      constructor
      · intro _; exact List.mem_cons_self x rest
      · intro _
        show 0 < (if x = x then (1 : ℚ) / (RRF_K + (r : ℚ) + 1) else 0) + rrfSumAux rest (r + 1) x
        rw [if_pos rfl]
        exact add_pos_of_pos_of_nonneg (div_pos one_pos (rrf_den_pos r))
          (rrfSumAux_nonneg x rest (r + 1))
    · have h' : ¬ a = x := fun e => h e.symm
      show (0 < (if x = a then (1 : ℚ) / (RRF_K + (r : ℚ) + 1) else 0) +
        rrfSumAux rest (r + 1) a) ↔ _
      rw [if_neg h, zero_add, ih (r + 1)]
      simp [List.mem_cons, h']

/-- An id absent from a list gets no RRF contribution from it. -/
theorem rrfSumAux_eq_zero_of_not_mem (a : String) :
    ∀ (ids : List String) (r : ℕ), a ∉ ids → rrfSumAux ids r a = 0 := by
  intro ids
  induction ids with
  | nil => intro r _; rfl
  | cons x rest ih =>
    intro r ha
    have h1 : ¬ x = a := fun e => ha (e ▸ List.mem_cons_self x rest)
    have h2 : a ∉ rest := fun hm => ha (List.mem_cons_of_mem _ hm)
    show (if x = a then (1 : ℚ) / (RRF_K + (r : ℚ) + 1) else 0) + rrfSumAux rest (r + 1) a = 0
    rw [if_neg h1, ih (r + 1) h2, zero_add]

/-- Over a duplicate-free list, the RRF contribution of a member is the
single reciprocal-rank term at its (zero-based) rank. -/
theorem rrfSumAux_nodup_formula (a : String) :
    ∀ (ids : List String) (r : ℕ), ids.Nodup → a ∈ ids →
      rrfSumAux ids r a = 1 / (RRF_K + (r : ℚ) + (rankIn ids a : ℚ) + 1) := by
  intro ids
  induction ids with
  | nil => intro r _ h; cases h
  | cons x rest ih =>
    intro r hnd hmem
    rw [List.nodup_cons] at hnd
    obtain ⟨hx, hrest⟩ := hnd
    by_cases h : x = a
    · subst h
      show (if x = x then (1 : ℚ) / (RRF_K + (r : ℚ) + 1) else 0) + rrfSumAux rest (r + 1) x = _
      rw [if_pos rfl, rrfSumAux_eq_zero_of_not_mem x rest (r + 1) hx, add_zero]
      show _ = 1 / (RRF_K + (r : ℚ) + ((rankIn (x :: rest) x : ℕ) : ℚ) + 1)
      have hrk : rankIn (x :: rest) x = 0 := by simp [rankIn]
      rw [hrk]
      norm_num
    · have hmem2 : a ∈ rest := by
        rcases List.mem_cons.mp hmem with e | hm
        · exact absurd e.symm h
        · exact hm
      show (if x = a then (1 : ℚ) / (RRF_K + (r : ℚ) + 1) else 0) + rrfSumAux rest (r + 1) a = _
      rw [if_neg h, zero_add, ih (r + 1) hrest hmem2]
      have hrk : rankIn (x :: rest) a = rankIn rest a + 1 := by simp [rankIn, h]
      rw [hrk]
      push_cast
      ring_nf

/-- A duplicate-free list is ordered by first-occurrence rank. -/
theorem rankIn_pairwise :
    ∀ (ks : List String), ks.Nodup → ks.Pairwise (fun a b => rankIn ks a < rankIn ks b) := by
  intro ks
  induction ks with
  | nil => intro _; exact List.Pairwise.nil
  | cons k rest ih =>
    intro h
    rw [List.nodup_cons] at h
    obtain ⟨hk, hrest⟩ := h
    apply List.Pairwise.cons
    · intro b hb
      have hbk : ¬ k = b := fun e => hk (e ▸ hb)
      simp only [rankIn, if_pos rfl, if_neg hbk]
      exact Nat.succ_pos _
    · refine (ih hrest).imp_of_mem ?_
      intro a b ha hb hab
      have hak : ¬ k = a := fun e => hk (e ▸ ha)
      have hbk : ¬ k = b := fun e => hk (e ▸ hb)
      simp only [rankIn, if_neg hak, if_neg hbk]
      omega

/-- For nonnegative rationals, a sum is nonzero iff one summand is positive. -/
theorem add_ne_zero_iff_of_nonneg (a b : ℚ) (ha : 0 ≤ a) (hb : 0 ≤ b) :
    a + b ≠ 0 ↔ 0 < a ∨ 0 < b := by
  constructor
  · intro h
    by_contra hc
    push_neg at hc
    obtain ⟨h1, h2⟩ := hc
    exact h (by linarith)
  · intro h hz
    rcases h with h | h <;> linarith

/-- The fused output is a permutation of the `rrf_scores` items. -/
theorem hybridFuse_perm_rrf (L V : List String) :
    (hybridFuse L V).Perm (rrf_scores L V) := by
  unfold hybridFuse
  by_cases he : (rrf_scores L V).isEmpty = true
  · rw [if_pos he]
    rw [List.isEmpty_iff] at he
    rw [he]
  · rw [if_neg he]
    exact sortByKeyDesc_perm Prod.snd (rrf_scores L V)

/-- Every id in the fused output came from `L` or `V`. -/
theorem mem_hybridFuse_fst (L V : List String) (a : String)
    (ha : a ∈ (hybridFuse L V).map Prod.fst) : a ∈ L ∨ a ∈ V := by
  have h1 : a ∈ (rrf_scores L V).map Prod.fst :=
    ((hybridFuse_perm_rrf L V).map Prod.fst).mem_iff.mp ha
  rw [map_fst_rrf_scores] at h1
  rw [mem_dedupFirst, List.mem_append] at h1
  exact h1

/-! ## Claim C5 — the RRF fusion output -/

/-- Counterexample to claim C5 as stated: with `L = ["b"]`, `V = ["a"]` the
two candidates tie on fused score, yet the output lists `"b"` before the
lexicographically smaller `"a"` — Python's stable sort keeps the dict's
insertion order on ties, it does not compare ids. -/
theorem hybridFuse_tie_not_lexicographic :
    hybridFuse ["b"] ["a"] = [("b", 1 / 61), ("a", 1 / 61)] ∧
    scoreOf (rrf_scores ["b"] ["a"]) "a" = scoreOf (rrf_scores ["b"] ["a"]) "b" ∧
    ("a" : String) < "b" := by
  refine ⟨?_, ?_, ?_⟩
  · norm_num +decide [hybridFuse, rrf_scores, accumRanks, bump, sortByKeyDesc, insertDesc,
      RRF_K]
  · norm_num +decide [rrf_scores, accumRanks, bump, scoreOf, RRF_K]
  · rw [String.lt_iff_toList_lt]
    decide

/-- Claim C5 (amended): the fused output of `hybrid_search` contains exactly
the ids appearing in `L` or `V` (once each — equivalently, exactly the ids
with nonzero accumulated score, every contribution being positive), each
paired with the accumulated score `Σ 1/(RRF_K + r + 1)` over its zero-based
ranks in `L` and in `V`, sorted by fused score descending; ties are broken
by order of first appearance (`L` positions first, then `V`), not by
lexicographic id order. -/
theorem hybridFuse_characterization (L V : List String) :
    ((hybridFuse L V).map Prod.fst).Perm (dedupFirst (L ++ V)) ∧
    (∀ p ∈ hybridFuse L V, p.2 = rrfSum L p.1 + rrfSum V p.1) ∧
    (∀ a : String, a ∈ (hybridFuse L V).map Prod.fst ↔ rrfSum L a + rrfSum V a ≠ 0) ∧
    (hybridFuse L V).Pairwise (fun p q => q.2 < p.2 ∨
      (p.2 = q.2 ∧ rankIn (dedupFirst (L ++ V)) p.1 < rankIn (dedupFirst (L ++ V)) q.1)) := by
  have hperm : (hybridFuse L V).Perm (rrf_scores L V) := hybridFuse_perm_rrf L V
  have hkeys : (rrf_scores L V).map Prod.fst = dedupFirst (L ++ V) := map_fst_rrf_scores L V
  have hnodup : ((rrf_scores L V).map Prod.fst).Nodup := by
    rw [hkeys]
    exact dedupFirst_nodup _
  refine ⟨?_, ?_, ?_, ?_⟩
  · exact hkeys ▸ hperm.map Prod.fst
  · intro p hp
    have hpd : p ∈ rrf_scores L V := hperm.mem_iff.mp hp
    rw [snd_eq_scoreOf _ hnodup p hpd, scoreOf_rrf_scores]
  · intro a
    rw [(hperm.map Prod.fst).mem_iff, hkeys, mem_dedupFirst, List.mem_append]
    show a ∈ L ∨ a ∈ V ↔ rrfSumAux L 0 a + rrfSumAux V 0 a ≠ 0
    rw [add_ne_zero_iff_of_nonneg _ _ (rrfSumAux_nonneg a L 0) (rrfSumAux_nonneg a V 0)]
    rw [rrfSumAux_pos_iff a L 0, rrfSumAux_pos_iff a V 0]
  · unfold hybridFuse
    by_cases he : (rrf_scores L V).isEmpty = true
    · rw [if_pos he]
      exact List.Pairwise.nil
    · rw [if_neg he]
      have h1 : ((rrf_scores L V).map Prod.fst).Pairwise
          (fun a b => rankIn (dedupFirst (L ++ V)) a < rankIn (dedupFirst (L ++ V)) b) := by
        rw [hkeys]
        exact rankIn_pairwise _ (dedupFirst_nodup _)
      exact pairwise_sortByKeyDesc Prod.snd _ (rrf_scores L V)
        (List.Pairwise.of_map Prod.fst (fun a b h => h) h1)

/-- Witness for the amended claim C5 at concrete lists: the entry for `"b"`
carries the accumulated score of its ranks. -/
theorem hybridFuse_characterization_witness :
    (("b", (1 : ℚ) / 61) : String × ℚ).2 = rrfSum ["b"] "b" + rrfSum ["a"] "b" :=
  (hybridFuse_characterization ["b"] ["a"]).2.1 ("b", (1 : ℚ) / 61) (by
    norm_num +decide [hybridFuse, rrf_scores, accumRanks, bump, sortByKeyDesc, insertDesc,
      RRF_K])

/-! ## Claim C6 — strict RRF rank monotonicity -/

/-- Claim C6: if candidate `A` ranks strictly better than `B` in both the
lexical list `L` and the vector list `V` (both duplicate-free, both
containing `A` and `B`), then `A`'s fused RRF score computed by
`hybrid_search` is strictly greater than `B`'s. -/
theorem rrf_strict_monotonicity (L V : List String) (A B : String)
    (hLnd : L.Nodup) (hVnd : V.Nodup)
    (hAL : A ∈ L) (hBL : B ∈ L) (hAV : A ∈ V) (hBV : B ∈ V)
    (h1 : rankIn L A < rankIn L B) (h2 : rankIn V A < rankIn V B) :
    scoreOf (rrf_scores L V) B < scoreOf (rrf_scores L V) A := by
  rw [scoreOf_rrf_scores, scoreOf_rrf_scores]
  unfold rrfSum
  rw [rrfSumAux_nodup_formula A L 0 hLnd hAL, rrfSumAux_nodup_formula A V 0 hVnd hAV,
      rrfSumAux_nodup_formula B L 0 hLnd hBL, rrfSumAux_nodup_formula B V 0 hVnd hBV]
  have dA1 : (0 : ℚ) < RRF_K + ((0 : ℕ) : ℚ) + (rankIn L A : ℚ) + 1 := by
    unfold RRF_K
    positivity
  have dA2 : (0 : ℚ) < RRF_K + ((0 : ℕ) : ℚ) + (rankIn V A : ℚ) + 1 := by
    unfold RRF_K
    positivity
  have hlt1 : RRF_K + ((0 : ℕ) : ℚ) + (rankIn L A : ℚ) + 1 <
      RRF_K + ((0 : ℕ) : ℚ) + (rankIn L B : ℚ) + 1 := by
    have hc : (rankIn L A : ℚ) < (rankIn L B : ℚ) := by exact_mod_cast h1
    linarith
  have hlt2 : RRF_K + ((0 : ℕ) : ℚ) + (rankIn V A : ℚ) + 1 <
      RRF_K + ((0 : ℕ) : ℚ) + (rankIn V B : ℚ) + 1 := by
    have hc : (rankIn V A : ℚ) < (rankIn V B : ℚ) := by exact_mod_cast h2
    linarith
  exact add_lt_add (one_div_lt_one_div_of_lt dA1 hlt1) (one_div_lt_one_div_of_lt dA2 hlt2)

/-- Witness for claim C6 at concrete lists `L = V = ["a", "b"]`. -/
theorem rrf_strict_monotonicity_witness :
    scoreOf (rrf_scores ["a", "b"] ["a", "b"]) "b" <
      scoreOf (rrf_scores ["a", "b"] ["a", "b"]) "a" :=
  rrf_strict_monotonicity ["a", "b"] ["a", "b"] "a" "b"
    (by decide) (by decide) (by decide) (by decide) (by decide) (by decide)
    (by decide) (by decide)

/-! ## Claim C10 — the fused output only contains lexically filtered ids -/

/-- Claim C10: assuming the ANN store honours the id allowlist it is given
(every returned hit's id lies in the Stage 1 id list), every candidate id
returned by `hybrid_search` appears in the Stage 1 lexical result list. -/
theorem hybrid_search_ids_subset_lexical (f : SearchFilters)
    (esResponse : Except Unit (List Hit)) (V : List Hit)
    (hV : ∀ h ∈ V, h.candidate_id ∈
      (_filter_candidates_with_elasticsearch esResponse).map Hit.candidate_id) :
    ∀ out, hybrid_search f esResponse (Except.ok V) = Except.ok out →
      ∀ p ∈ out, p.1 ∈ (_filter_candidates_with_elasticsearch esResponse).map
        Hit.candidate_id := by
  intro out hout p hp
  unfold hybrid_search at hout
  by_cases he : (_filter_candidates_with_elasticsearch esResponse).isEmpty = true
  · rw [if_pos he] at hout
    have h0 : ([] : List (String × ℚ)) = out := Except.ok.inj hout
    rw [← h0] at hp
    cases hp
  · rw [if_neg he] at hout
    unfold _rank_candidates_with_milvus at hout
    by_cases hq : (((_filter_candidates_with_elasticsearch esResponse).map
        Hit.candidate_id).isEmpty || (semanticQueryText f).isEmpty) = true
    · rw [if_pos hq] at hout
      have h0 : hybridFuse ((_filter_candidates_with_elasticsearch esResponse).map
          Hit.candidate_id) (([] : List Hit).map Hit.candidate_id) = out :=
        Except.ok.inj hout
      rw [← h0] at hp
      have hmem := mem_hybridFuse_fst _ _ p.1 (List.mem_map.mpr ⟨p, hp, rfl⟩)
      rcases hmem with hL | hV2
      · exact hL
      · cases hV2
    · rw [if_neg hq] at hout
      have h0 : hybridFuse ((_filter_candidates_with_elasticsearch esResponse).map
          Hit.candidate_id) (V.map Hit.candidate_id) = out := Except.ok.inj hout
      rw [← h0] at hp
      have hmem := mem_hybridFuse_fst _ _ p.1 (List.mem_map.mpr ⟨p, hp, rfl⟩)
      rcases hmem with hL | hV2
      · exact hL
      · rcases List.mem_map.mp hV2 with ⟨w, hw, hid⟩
        rw [← hid]
        exact hV w hw

/-- Witness for claim C10 at a concrete search with an empty vector stage. -/
theorem hybrid_search_ids_subset_lexical_witness :
    (("a", (1 : ℚ) / (RRF_K + ((0 : ℕ) : ℚ) + 1)) : String × ℚ).1 ∈
      (_filter_candidates_with_elasticsearch
        (Except.ok [{ candidate_id := "a", score := 1 }])).map Hit.candidate_id :=
  hybrid_search_ids_subset_lexical { role := some "q" }
    (Except.ok [{ candidate_id := "a", score := 1 }]) [] (by simp)
    [("a", (1 : ℚ) / (RRF_K + ((0 : ℕ) : ℚ) + 1))] rfl
    ("a", (1 : ℚ) / (RRF_K + ((0 : ℕ) : ℚ) + 1)) (List.mem_singleton.mpr rfl)

end App
